import Mathlib

/-!
Verification of the tscpp serialization library (buffer API, stream API and
compile-time type-id) against its natural-language specification.

The C++ sources are shallowly embedded: byte buffers and C strings become
`List Nat` (one `Nat` per byte, the terminator is the byte `0`), `int` return
codes become `Int`, `std::istream` becomes an explicit `IStream` state
(contents plus cursor), and exceptions become an `Option TscppExc` component
of an explicit result record.  Type names (tags) are represented by the list
of their bytes without the trailing terminator; a well-formed tag contains no
`0` byte.
-/

namespace Tscpp

/-- Error code `BufferTooSmall = -1` from `enum TscppError`. -/
def BufferTooSmall : Int := -1

/-- Error code `TypeMismatch = -2` (named `WrongType` in the newer header,
same value). -/
def TypeMismatch : Int := -2

/-- Error code `UnknownType = -3` (named `TypeNotFound` in `tscpp.cpp`,
same value). -/
def UnknownType : Int := -3

/-- Alias used by `tscpp.cpp`: `TypeNotFound` is the same code as
`UnknownType`. -/
def TypeNotFound : Int := UnknownType

/-- `strnlen(buf, n)`: the number of bytes before the first `0` byte among
the first `n` bytes of `buf`, or `n` when no `0` occurs there. -/
def strnlen (buf : List Nat) (n : Nat) : Nat :=
  ((buf.take n).takeWhile (fun b => b ≠ 0)).length

/-- A type pool: the `std::map` from mangled type names to
`(payload size, callback)` entries, embedded as an association list from the
tag's bytes to the registered payload size.  (The registered callback itself
performs no observable state change on the transport, so it is not part of
the embedding.) -/
abbrev TypePool := List (List Nat × Nat)

/-- `types.find(name)` on the pool's map: the payload size registered for
`name`, if any. -/
def poolFind : TypePool → List Nat → Option Nat
  | [], _ => none
  | (k, v) :: rest, n => if k = n then some v else poolFind rest n

/-- `serializeImpl(buffer, bufSize, name, data, size)` from `tscpp.cpp`:
if `nameSize+1+size > bufSize` return `BufferTooSmall`; otherwise write
`name`, its terminator, and the `size` payload bytes at the start of the
buffer and return `nameSize+1+size`.  The pair returned here is the `int`
return value together with the buffer contents after the call (`data` plays
the role of the `size` bytes at `*data`). -/
def serializeImpl (buffer : List Nat) (bufSize : Int) (name data : List Nat) :
    Int × List Nat :=
  if ((name.length + 1 + data.length : Nat) : Int) > bufSize then
    (BufferTooSmall, buffer)
  else
    (((name.length + 1 + data.length : Nat) : Int),
      name ++ 0 :: (data ++ buffer.drop (name.length + 1 + data.length)))

/-- `unserializeImpl(name, data, size, buffer, bufSize)` from `tscpp.cpp`:
if `nameSize+1+size > bufSize` return `BufferTooSmall`; if the first
`nameSize+1` buffer bytes differ from `name` plus terminator return
`TypeMismatch`; otherwise copy the `size` payload bytes into `data` and
return `nameSize+1+size`.  The pair returned is the `int` return value
together with the contents of `data` after the call (`size` is
`data.length`). -/
def unserializeImpl (name data buffer : List Nat) (bufSize : Int) :
    Int × List Nat :=
  if ((name.length + 1 + data.length : Nat) : Int) > bufSize then
    (BufferTooSmall, data)
  else if buffer.take (name.length + 1) ≠ name ++ [0] then
    (TypeMismatch, data)
  else
    (((name.length + 1 + data.length : Nat) : Int),
      (buffer.drop (name.length + 1)).take data.length)

/-- `TypePool::unserializeUnknownImpl(name, buffer, bufSize)` (buffer
overload) from `tscpp.cpp`: `TypeNotFound` when the tag is not registered,
`BufferTooSmall` when the registered payload size exceeds `bufSize`, else
the payload size (the callback `usc` is invoked on the payload bytes, with
no effect on the buffer). -/
def TypePool.unserializeUnknownImpl (tp : TypePool) (name : List Nat)
    (bufSize : Int) : Int :=
  match poolFind tp name with
  | none => TypeNotFound
  | some size => if (size : Int) > bufSize then BufferTooSmall else (size : Int)

/-- `unserializeUnknown(tp, buffer, bufSize)` from `tscpp.cpp`: compute
`nameSize = strnlen(buf, bufSize)`; if `nameSize >= bufSize` return
`BufferTooSmall`; otherwise return
`tp.unserializeUnknownImpl(name, buf+nameSize+1, bufSize-nameSize-1) + nameSize + 1`
— note that the addition is performed unconditionally, also when the inner
call returned an error code. -/
def unserializeUnknown (tp : TypePool) (buffer : List Nat) (bufSize : Nat) :
    Int :=
  if strnlen buffer bufSize ≥ bufSize then BufferTooSmall
  else
    TypePool.unserializeUnknownImpl tp (buffer.take (strnlen buffer bufSize))
        ((bufSize : Int) - ((strnlen buffer bufSize : Nat) : Int) - 1)
      + ((strnlen buffer bufSize : Nat) : Int) + 1

/-- `peekTypeName(buffer, bufSize)` from `tscpp.cpp`: `""` when no
terminator occurs among the first `bufSize` bytes, else the leading tag (the
bytes before the first terminator). -/
def peekTypeName (buffer : List Nat) (bufSize : Nat) : List Nat :=
  if strnlen buffer bufSize ≥ bufSize then []
  else buffer.take (strnlen buffer bufSize)

/-- An `std::istream` over a fixed byte sequence: the full contents plus the
read cursor (`tellg`). -/
structure IStream where
  data : List Nat
  pos : Nat
deriving DecidableEq

/-- `is.read(dst, n)`: extract up to `n` bytes from the cursor position.
Returns the bytes actually extracted, the stream afterwards, and the eof
flag, which is set exactly when fewer than `n` bytes were available. -/
def IStream.read (s : IStream) (n : Nat) : List Nat × IStream × Bool :=
  (((s.data.drop s.pos).take n),
    ⟨s.data, s.pos + ((s.data.drop s.pos).take n).length⟩,
    decide (((s.data.drop s.pos).take n).length < n))

/-- `is.seekg(p)`: move the cursor to `p`. -/
def IStream.seekg (s : IStream) (p : Nat) : IStream := ⟨s.data, p⟩

/-- `getline(is, name, '\0')`: extract bytes up to and including the first
terminator; the terminator is consumed but not stored.  When no terminator
occurs before the end of the stream, all remaining bytes are extracted and
the eof flag is set. -/
def IStream.getlineZ (s : IStream) : List Nat × IStream × Bool :=
  if ((s.data.drop s.pos).takeWhile (fun b => b ≠ 0)).length
      < (s.data.drop s.pos).length then
    ((s.data.drop s.pos).takeWhile (fun b => b ≠ 0),
      ⟨s.data, s.pos + ((s.data.drop s.pos).takeWhile (fun b => b ≠ 0)).length + 1⟩,
      false)
  else
    ((s.data.drop s.pos).takeWhile (fun b => b ≠ 0), ⟨s.data, s.data.length⟩, true)

/-- The `TscppException` variants raised by the stream API: `"eof"`,
`"wrong type"` (carrying the actual tag found) and `"unknown type"`
(carrying the unregistered tag). -/
inductive TscppExc
  | eof
  | wrongType (name : List Nat)
  | unknownType (name : List Nat)
deriving DecidableEq

/-- Outcome of `InputArchive::unserializeImpl`: the raised exception (if
any), the stream afterwards, and the contents of the destination `data`
afterwards. -/
structure IAResult where
  exc : Option TscppExc
  s : IStream
  data : List Nat
deriving DecidableEq

/-- `InputArchive::unserializeImpl(name, data, size)` from `tscpp.cpp`:
record `pos = tellg()`; read `nameSize+1` bytes (throw `eof` when short);
if they differ from `name` plus terminator, run `wrongType(pos)` — seek to
`pos`, `getline` the actual tag, seek to `pos` again and throw
`"wrong type"` with that tag; otherwise read `size` bytes straight into
`data` (throw `eof` when short, the available bytes having already been
stored). -/
def InputArchive.unserializeImpl (name data : List Nat) (s : IStream) :
    IAResult :=
  let r1 := s.read (name.length + 1)
  if r1.2.2 then ⟨some .eof, r1.2.1, data⟩
  else if r1.1 ≠ name ++ [0] then
    ⟨some (.wrongType ((r1.2.1.seekg s.pos).getlineZ.1)),
      ((r1.2.1.seekg s.pos).getlineZ.2.1).seekg s.pos, data⟩
  else
    let r2 := r1.2.1.read data.length
    if r2.2.2 then ⟨some .eof, r2.2.1, r2.1 ++ data.drop r2.1.length⟩
    else ⟨none, r2.2.1, r2.1 ++ data.drop r2.1.length⟩

/-- Outcome of the unknown-type stream read: the raised exception (if any),
the stream afterwards, and the payload bytes handed to the registered
callback on success. -/
structure UIAResult where
  exc : Option TscppExc
  s : IStream
  decoded : Option (List Nat)
deriving DecidableEq

/-- `TypePool::unserializeUnknownImpl(name, is, pos)` (stream overload) from
`tscpp.cpp`: when `name` is not registered, seek back to `pos` and throw
`"unknown type"` with the tag; otherwise read the registered payload size
into scratch storage (throw `eof` when short, without any rewind) and hand
the bytes to the callback. -/
def TypePool.unserializeUnknownStream (tp : TypePool) (name : List Nat)
    (s : IStream) (pos : Nat) : UIAResult :=
  match poolFind tp name with
  | none => ⟨some (.unknownType name), s.seekg pos, none⟩
  | some size =>
    let r := s.read size
    if r.2.2 then ⟨some .eof, r.2.1, none⟩
    else ⟨none, r.2.1, some r.1⟩

/-- `UnknownInputArchive::unserialize()` from `tscpp.cpp`: record
`pos = tellg()`; `getline` the tag up to the terminator (throw `eof` when
the stream ends first, without any rewind); then dispatch through the
pool's stream overload. -/
def UnknownInputArchive.unserialize (tp : TypePool) (s : IStream) : UIAResult :=
  let g := s.getlineZ
  if g.2.2 then ⟨some .eof, g.2.1, none⟩
  else TypePool.unserializeUnknownStream tp g.1 g.2.1 s.pos

/-- `OutputArchive::serializeImpl(name, data, size)` from `tscpp.cpp`:
append the `nameSize+1` tag-plus-terminator bytes and then the `size`
payload bytes to the output stream (embedded as the list of bytes written so
far). -/
def OutputArchive.serializeImpl (os name data : List Nat) : List Nat :=
  os ++ (name ++ [0]) ++ data

/-- `comptime_memcmp(a, b, len)` from `typeid.h`: `true` exactly when the
first `len` bytes of `a` and `b` agree (both operands hold at least `len`
bytes at every use site). -/
def comptime_memcmp (a b : List Nat) (len : Nat) : Bool :=
  decide (a.take len = b.take len)

/-- The 32-bit value a `char` byte contributes in `hash += *a++`: bytes of
the source's ASCII inputs are below 128 and contribute their own value;
bytes 128–255 would be sign-extended by the (signed) `char` arithmetic. -/
def signExtendByte (b : Nat) : Nat :=
  if b < 128 then b else (b + (2 ^ 32 - 256)) % 2 ^ 32

/-- One loop iteration of `comptime_hash`:
`hash += *a++; hash += hash << 10; hash ^= hash >> 6`, on `uint32_t`. -/
def hashRound (h b : Nat) : Nat :=
  ((h + signExtendByte b) % 2 ^ 32 + ((h + signExtendByte b) % 2 ^ 32) * 2 ^ 10) % 2 ^ 32
    ^^^ (((h + signExtendByte b) % 2 ^ 32 + ((h + signExtendByte b) % 2 ^ 32) * 2 ^ 10) % 2 ^ 32) / 2 ^ 6

/-- The finalization of `comptime_hash`:
`hash += hash << 3; hash ^= hash >> 11; hash += hash << 15`, on `uint32_t`. -/
def hashFinish (h : Nat) : Nat :=
  (((h + h * 2 ^ 3) % 2 ^ 32 ^^^ ((h + h * 2 ^ 3) % 2 ^ 32) / 2 ^ 11)
    + ((h + h * 2 ^ 3) % 2 ^ 32 ^^^ ((h + h * 2 ^ 3) % 2 ^ 32) / 2 ^ 11) * 2 ^ 15) % 2 ^ 32

/-- `comptime_hash(a, len)` from `typeid.h`: Jenkins's one-at-a-time hash of
the `len` bytes of `a`, starting from `hash = 0`. -/
def comptime_hash (a : List Nat) : Nat :=
  hashFinish (a.foldl hashRound 0)

/-- `type_id<T>()` from `typeid.h`, as a function of the bytes of
`__PRETTY_FUNCTION__` (`pf`) and of the two expected literals
(`pre`/`post`).  The two `static_assert`s become the guard: when either the
prefix or the suffix check fails the result is `none` (compilation fails);
otherwise the result is the hash of `pf` with `pre` and `post` stripped. -/
def type_id (pf pre post : List Nat) : Option Nat :=
  if pre.length < pf.length ∧ comptime_memcmp pf pre pre.length = true
      ∧ post.length < pf.length
      ∧ comptime_memcmp (pf.drop (pf.length - post.length)) post post.length = true
  then some (comptime_hash
    ((pf.drop pre.length).take (pf.length - pre.length - post.length)))
  else none

/-- One per-byte step of the hash exactly as the specification words it:
`h += byte; h += h<<10; h ^= h>>6` on 32-bit values, the byte contributing
its own (unsigned) value. -/
def specHashRound (h b : Nat) : Nat :=
  ((h + b) % 2 ^ 32 + ((h + b) % 2 ^ 32) * 2 ^ 10) % 2 ^ 32
    ^^^ (((h + b) % 2 ^ 32 + ((h + b) % 2 ^ 32) * 2 ^ 10) % 2 ^ 32) / 2 ^ 6

/-- The finalization exactly as the specification words it:
`h += h<<3; h ^= h>>11; h += h<<15` on 32-bit values. -/
def specHashFinish (h : Nat) : Nat :=
  (((h + h * 2 ^ 3) % 2 ^ 32 ^^^ ((h + h * 2 ^ 3) % 2 ^ 32) / 2 ^ 11)
    + ((h + h * 2 ^ 3) % 2 ^ 32 ^^^ ((h + h * 2 ^ 3) % 2 ^ 32) / 2 ^ 11) * 2 ^ 15) % 2 ^ 32

/-- The one-at-a-time hash exactly as the specification words it: seed 0,
the per-byte mixing step for each byte in order, then the finalization. -/
def specOneAtATimeHash (a : List Nat) : Nat :=
  specHashFinish (a.foldl specHashRound 0)

/-! ## Helper lemmas about lists of bytes -/


theorem take_append_zero_cons (name stuff : List Nat) :
    (name ++ 0 :: stuff).take (name.length + 1) = name ++ [0] := by
  rw [List.take_append_eq_append_take]
  simp

theorem drop_append_zero_cons (name stuff : List Nat) :
    (name ++ 0 :: stuff).drop (name.length + 1) = stuff := by
  rw [List.drop_append_eq_append_drop]
  simp

theorem takeWhile_nz_of_not_mem {l : List Nat} (h : 0 ∉ l) :
    l.takeWhile (fun b => b ≠ 0) = l := by
  induction l with
  | nil => rfl
  | cons x xs ih =>
    simp only [List.mem_cons, not_or] at h
    rw [List.takeWhile_cons_of_pos (by simpa using Ne.symm h.1)]
    rw [ih h.2]

theorem takeWhile_nz_append {tag : List Nat} (rest : List Nat) (h : 0 ∉ tag) :
    (tag ++ 0 :: rest).takeWhile (fun b => b ≠ 0) = tag := by
  induction tag with
  | nil => simp
  | cons x xs ih =>
    simp only [List.mem_cons, not_or] at h
    rw [List.cons_append, List.takeWhile_cons_of_pos (by simpa using Ne.symm h.1)]
    rw [ih h.2]

theorem takeWhile_nz_length_lt {l : List Nat} (h : 0 ∈ l) :
    (l.takeWhile (fun b => b ≠ 0)).length < l.length := by
  induction l with
  | nil => cases h
  | cons x xs ih =>
    by_cases hx : x = 0
    · subst hx
      simp
    · rw [List.takeWhile_cons_of_pos (by simpa using hx)]
      have := ih (by
        rcases List.mem_cons.mp h with h1 | h1
        · exact absurd h1.symm hx
        · exact h1)
      simpa using this

theorem tag_take_eq {a b : List Nat} (rest : List Nat) (ha : 0 ∉ a) (hb : 0 ∉ b)
    (h : (a ++ 0 :: rest).take (b.length + 1) = b ++ [0]) : a = b := by
  induction b generalizing a with
  | nil =>
    cases a with
    | nil => rfl
    | cons x xs =>
      simp only [List.mem_cons, not_or] at ha
      simp at h
      exact absurd h.symm ha.1
  | cons y ys ih =>
    cases a with
    | nil =>
      simp only [List.mem_cons, not_or] at hb
      simp at h
      exact absurd h.1 hb.1
    | cons x xs =>
      simp only [List.cons_append, List.length_cons, List.take_succ_cons,
        List.cons_eq_cons] at h
      simp only [List.mem_cons, not_or] at ha hb
      rw [h.1, ih ha.2 hb.2 h.2]

theorem tag_take_ne {a b : List Nat} (rest : List Nat) (ha : 0 ∉ a) (hb : 0 ∉ b)
    (hab : a ≠ b) : (a ++ 0 :: rest).take (b.length + 1) ≠ b ++ [0] :=
  fun h => hab (tag_take_eq rest ha hb h)


theorem takeWhile_nz_eq_take (l : List Nat) :
    l.takeWhile (fun b => b ≠ 0) = l.take ((l.takeWhile (fun b => b ≠ 0)).length) := by
  induction l with
  | nil => rfl
  | cons x xs ih =>
    by_cases hx : x = 0
    · subst hx
      simp
    · rw [List.takeWhile_cons_of_pos (by simpa using hx)]
      simp only [List.length_cons, List.take_succ_cons]
      exact congrArg (x :: ·) ih

theorem read_exact {s : IStream} {n : Nat} (h : n ≤ (s.data.drop s.pos).length) :
    s.read n = ((s.data.drop s.pos).take n, ⟨s.data, s.pos + n⟩, false) := by
  unfold IStream.read
  have hlen : ((s.data.drop s.pos).take n).length = n := by
    rw [List.length_take]
    omega
  rw [hlen]
  simp

theorem getlineZ_found {s : IStream} {tag rest : List Nat}
    (hd : s.data.drop s.pos = tag ++ 0 :: rest) (hz : 0 ∉ tag) :
    s.getlineZ = (tag, ⟨s.data, s.pos + tag.length + 1⟩, false) := by
  unfold IStream.getlineZ
  rw [hd, takeWhile_nz_append rest hz]
  rw [if_pos (by simp [List.length_append])]

theorem getlineZ_eof {s : IStream} (hz : 0 ∉ s.data.drop s.pos)
    (_hp : s.pos ≤ s.data.length) :
    s.getlineZ = (s.data.drop s.pos, ⟨s.data, s.data.length⟩, true) := by
  unfold IStream.getlineZ
  rw [takeWhile_nz_of_not_mem hz]
  rw [if_neg (lt_irrefl _)]

theorem getlineZ_tag (s : IStream) :
    s.getlineZ.1 = (s.data.drop s.pos).takeWhile (fun b => b ≠ 0) := by
  unfold IStream.getlineZ
  split <;> rfl

theorem getlineZ_data (s : IStream) : s.getlineZ.2.1.data = s.data := by
  unfold IStream.getlineZ
  split <;> rfl


theorem hashRound_eq_spec {h b : Nat} (hb : b < 128) : hashRound h b = specHashRound h b := by
  unfold hashRound specHashRound signExtendByte
  rw [if_pos hb]

theorem foldl_hashRound_eq_spec (a : List Nat) (h : Nat) (ha : ∀ b ∈ a, b < 128) :
    a.foldl hashRound h = a.foldl specHashRound h := by
  induction a generalizing h with
  | nil => rfl
  | cons x xs ih =>
    simp only [List.foldl_cons]
    rw [hashRound_eq_spec (ha x (List.mem_cons_self x xs))]
    exact ih _ (fun b hb => ha b (List.mem_cons_of_mem x hb))

/-! ## Claim theorems -/

/-- Claim C2: for every fixed-layout value (embedded as its byte image
`data`) and every zero-free tag `name`, serializing into a buffer large
enough for the record and then unserializing that buffer for the same tag
recovers the payload byte-for-byte, and both calls return the same consumed
length `len(tag) + 1 + sizeof(T)`. -/
theorem serialize_unserialize_roundtrip (name data dataOld buffer : List Nat)
    (_hz : 0 ∉ name)
    (hfit : name.length + 1 + data.length ≤ buffer.length)
    (hlen : dataOld.length = data.length) :
    (serializeImpl buffer (buffer.length : Int) name data).1
        = ((name.length + 1 + data.length : Nat) : Int) ∧
    unserializeImpl name dataOld
        (serializeImpl buffer (buffer.length : Int) name data).2
        (buffer.length : Int)
      = (((name.length + 1 + data.length : Nat) : Int), data) := by
  have hg : ¬ (((name.length + 1 + data.length : Nat) : Int) > (buffer.length : Int)) := by
    push_cast
    omega
  simp only [serializeImpl, unserializeImpl, hlen, if_neg hg]
  refine ⟨trivial, ?_⟩
  rw [if_neg (not_ne_iff.mpr (take_append_zero_cons name _))]
  rw [drop_append_zero_cons, List.take_left]

/-- Witness for C2 at tag `"a"` and payload `[5, 6]` in a 5-byte buffer. -/
theorem serialize_unserialize_roundtrip_witness :
    (serializeImpl [9, 9, 9, 9, 9] (([9, 9, 9, 9, 9] : List Nat).length : Int) [97] [5, 6]).1
        = ((([97] : List Nat).length + 1 + ([5, 6] : List Nat).length : Nat) : Int) ∧
    unserializeImpl [97] [0, 0]
        (serializeImpl [9, 9, 9, 9, 9] (([9, 9, 9, 9, 9] : List Nat).length : Int) [97] [5, 6]).2
        (([9, 9, 9, 9, 9] : List Nat).length : Int)
      = (((([97] : List Nat).length + 1 + ([5, 6] : List Nat).length : Nat) : Int), [5, 6]) :=
  serialize_unserialize_roundtrip [97] [5, 6] [0, 0] [9, 9, 9, 9, 9]
    (by decide) (by decide) (by decide)

/-- Claim C6: with required record length `L = tag_len + 1 + payload_size`,
serialization into a capacity-`L` buffer succeeds returning `L` while
capacity `L - 1` fails with `BufferTooSmall`; likewise unserialization from
a matching record of size `L` succeeds and from size `L - 1` fails with
`BufferTooSmall`. -/
theorem bufferTooSmall_boundary (name data dataOld buffer : List Nat)
    (_hz : 0 ∉ name)
    (_hcap : buffer.length = name.length + 1 + data.length)
    (hlen : dataOld.length = data.length) :
    (serializeImpl buffer ((name.length + 1 + data.length : Nat) : Int) name data).1
        = ((name.length + 1 + data.length : Nat) : Int) ∧
    (serializeImpl buffer (((name.length + 1 + data.length : Nat) : Int) - 1) name data).1
        = BufferTooSmall ∧
    unserializeImpl name dataOld (name ++ 0 :: data)
        ((name.length + 1 + data.length : Nat) : Int)
      = (((name.length + 1 + data.length : Nat) : Int), data) ∧
    (unserializeImpl name dataOld ((name ++ 0 :: data).take (name.length + data.length))
        (((name.length + 1 + data.length : Nat) : Int) - 1)).1
      = BufferTooSmall := by
  refine ⟨?_, ?_, ?_, ?_⟩
  · simp only [serializeImpl]
    rw [if_neg (by omega)]
  · simp only [serializeImpl]
    rw [if_pos (by omega)]
  · simp only [unserializeImpl, hlen]
    rw [if_neg (by omega), if_neg (not_ne_iff.mpr (take_append_zero_cons name data))]
    rw [drop_append_zero_cons, List.take_length]
  · simp only [unserializeImpl, hlen]
    rw [if_pos (by omega)]

/-- Witness for C6 at tag `"a"` and 2-byte payload, `L = 4`. -/
theorem bufferTooSmall_boundary_witness :
    (serializeImpl [9, 9, 9, 9] ((([97] : List Nat).length + 1 + ([5, 6] : List Nat).length : Nat) : Int) [97] [5, 6]).1
        = ((([97] : List Nat).length + 1 + ([5, 6] : List Nat).length : Nat) : Int) ∧
    (serializeImpl [9, 9, 9, 9] (((([97] : List Nat).length + 1 + ([5, 6] : List Nat).length : Nat) : Int) - 1) [97] [5, 6]).1
        = BufferTooSmall ∧
    unserializeImpl [97] [0, 0] ([97] ++ 0 :: [5, 6])
        ((([97] : List Nat).length + 1 + ([5, 6] : List Nat).length : Nat) : Int)
      = (((([97] : List Nat).length + 1 + ([5, 6] : List Nat).length : Nat) : Int), [5, 6]) ∧
    (unserializeImpl [97] [0, 0] (([97] ++ 0 :: [5, 6]).take (([97] : List Nat).length + ([5, 6] : List Nat).length))
        (((([97] : List Nat).length + 1 + ([5, 6] : List Nat).length : Nat) : Int) - 1)).1
      = BufferTooSmall :=
  bufferTooSmall_boundary [97] [5, 6] [0, 0] [9, 9, 9, 9] (by decide) (by decide) (by decide)

/-- Claim C7: the byte sequence appended to the output stream by
`OutputArchive::serializeImpl` equals the byte sequence that `serializeImpl`
writes at the start of a sufficiently large buffer: in both cases exactly
`tag ++ terminator ++ payload`, of total length `len(tag) + 1 + sizeof(v)`. -/
theorem stream_buffer_bytes_agree (os buffer name data : List Nat)
    (_hz : 0 ∉ name)
    (hfit : name.length + 1 + data.length ≤ buffer.length) :
    OutputArchive.serializeImpl os name data = os ++ (name ++ 0 :: data) ∧
    ((serializeImpl buffer (buffer.length : Int) name data).2).take
        (name.length + 1 + data.length) = name ++ 0 :: data ∧
    (name ++ 0 :: data).length = name.length + 1 + data.length := by
  refine ⟨by simp [OutputArchive.serializeImpl], ?_, by simp; omega⟩
  have hg : ¬ (((name.length + 1 + data.length : Nat) : Int) > (buffer.length : Int)) := by
    push_cast
    omega
  simp only [serializeImpl, if_neg hg]
  rw [List.take_append_eq_append_take, List.take_of_length_le (by omega)]
  have hrest : name.length + 1 + data.length - name.length = data.length + 1 := by
    omega
  rw [hrest, List.take_succ_cons, List.take_left]

/-- Witness for C7 at tag `"a"` and payload `[5, 6]`. -/
theorem stream_buffer_bytes_agree_witness :
    OutputArchive.serializeImpl [3] [97] [5, 6] = [3] ++ ([97] ++ 0 :: [5, 6]) ∧
    ((serializeImpl [9, 9, 9, 9, 9] (([9, 9, 9, 9, 9] : List Nat).length : Int) [97] [5, 6]).2).take
        (([97] : List Nat).length + 1 + ([5, 6] : List Nat).length) = [97] ++ 0 :: [5, 6] ∧
    (([97] : List Nat) ++ 0 :: [5, 6]).length = ([97] : List Nat).length + 1 + ([5, 6] : List Nat).length :=
  stream_buffer_bytes_agree [3] [9, 9, 9, 9, 9] [97] [5, 6] (by decide) (by decide)

/-- Claim C9: `peekTypeName` is a pure function of the buffer: when a
terminator occurs within the first `bufSize` bytes it returns the leading
tag (the bytes before the first terminator), otherwise it returns the empty
string; it takes the buffer by value and returns only the name, so it
mutates nothing and advances no cursor. -/
theorem peekTypeName_pure (buffer : List Nat) (bufSize : Nat)
    (h : bufSize ≤ buffer.length) :
    (0 ∈ buffer.take bufSize →
      peekTypeName buffer bufSize = (buffer.take bufSize).takeWhile (fun b => b ≠ 0)) ∧
    (0 ∉ buffer.take bufSize → peekTypeName buffer bufSize = []) := by
  have hlen : (buffer.take bufSize).length = bufSize := by
    rw [List.length_take]
    omega
  constructor
  · intro hmem
    have hlt : strnlen buffer bufSize < bufSize := by
      have := takeWhile_nz_length_lt hmem
      unfold strnlen
      omega
    unfold peekTypeName
    rw [if_neg (by omega)]
    rw [takeWhile_nz_eq_take (buffer.take bufSize), List.take_take]
    have hmin : min (strnlen buffer bufSize) bufSize = strnlen buffer bufSize := by
      omega
    rw [show ((buffer.take bufSize).takeWhile (fun b => b ≠ 0)).length
          = strnlen buffer bufSize from rfl, hmin]
  · intro hmem
    have heq : strnlen buffer bufSize = bufSize := by
      unfold strnlen
      rw [takeWhile_nz_of_not_mem hmem, hlen]
    unfold peekTypeName
    rw [if_pos (by omega)]

/-- Witness for C9: in the 4-byte buffer holding tag `"ab"`, a terminator
and a payload byte, the peek returns `"ab"`; in a 3-byte buffer with no
terminator it returns the empty string. -/
theorem peekTypeName_pure_witness :
    peekTypeName [97, 98, 0, 42] 4 = [97, 98] ∧ peekTypeName [97, 98, 99] 3 = [] :=
  ⟨((peekTypeName_pure [97, 98, 0, 42] 4 (by decide)).1 (by decide)).trans (by decide),
    (peekTypeName_pure [97, 98, 99] 3 (by decide)).2 (by decide)⟩

/-- Claim C3: in the known-type stream read, when the `tag_len + 1` bytes
read from the stream differ from the expected tag plus terminator, the
cursor is rewound to the position recorded at the start of the read, the
actual tag found in the stream (up to the terminator) is read, and a
`"wrong type"` failure carrying that actual tag is raised; the cursor ends
at the recorded record-start position, and the destination is untouched. -/
theorem inputArchive_mismatch_rewind (name data : List Nat) (s : IStream)
    (hbytes : name.length + 1 ≤ (s.data.drop s.pos).length)
    (hmism : (s.data.drop s.pos).take (name.length + 1) ≠ name ++ [0])
    (_hterm : 0 ∈ s.data.drop s.pos) :
    InputArchive.unserializeImpl name data s
      = ⟨some (.wrongType ((s.data.drop s.pos).takeWhile (fun b => b ≠ 0))),
          ⟨s.data, s.pos⟩, data⟩ := by
  simp only [InputArchive.unserializeImpl, read_exact hbytes]
  simp only [Bool.false_eq_true, if_false]
  rw [if_pos hmism]
  simp only [IStream.seekg]
  rw [getlineZ_tag, getlineZ_data]

/-- Witness for C3: expecting tag `"b"` on a stream holding a record tagged
`"a"` rewinds to the start and reports the actual tag `"a"`. -/
theorem inputArchive_mismatch_rewind_witness :
    InputArchive.unserializeImpl [98] [7, 7] ⟨[97, 0, 5, 6], 0⟩
      = ⟨some (.wrongType ((([97, 0, 5, 6] : List Nat).drop 0).takeWhile (fun b => b ≠ 0))),
          ⟨[97, 0, 5, 6], 0⟩, [7, 7]⟩ :=
  inputArchive_mismatch_rewind [98] [7, 7] ⟨[97, 0, 5, 6], 0⟩
    (by decide) (by decide) (by decide)

/-- Claim C10: in the known-type stream read, when the tag matches but the
stream ends before the full payload, the failure is a non-atomic `"eof"`:
the destination holds the bytes that were available followed by its old
remaining bytes, and the cursor is left at the end of the truncated read
(the end of the stream), not rewound to the record start. -/
theorem inputArchive_truncated_payload (name payload dataOld pre : List Nat)
    (_hz : 0 ∉ name)
    (htrunc : payload.length < dataOld.length) :
    InputArchive.unserializeImpl name dataOld ⟨pre ++ (name ++ 0 :: payload), pre.length⟩
      = ⟨some .eof,
          ⟨pre ++ (name ++ 0 :: payload), (pre ++ (name ++ 0 :: payload)).length⟩,
          payload ++ dataOld.drop payload.length⟩ := by
  have hd1 : ((pre ++ (name ++ 0 :: payload)).drop pre.length) = name ++ 0 :: payload :=
    List.drop_left pre _
  have hread : (⟨pre ++ (name ++ 0 :: payload), pre.length⟩ : IStream).read (name.length + 1)
      = (name ++ [0], ⟨pre ++ (name ++ 0 :: payload), pre.length + (name.length + 1)⟩, false) := by
    rw [read_exact (by rw [hd1]; simp [List.length_append])]
    rw [hd1, take_append_zero_cons]
  have hd2 : (pre ++ (name ++ 0 :: payload)).drop (pre.length + (name.length + 1)) = payload := by
    rw [List.drop_append_eq_append_drop, List.drop_eq_nil_of_le (by omega)]
    rw [List.nil_append,
      show pre.length + (name.length + 1) - pre.length = name.length + 1 from by omega]
    exact drop_append_zero_cons name payload
  have hread2 : (⟨pre ++ (name ++ 0 :: payload), pre.length + (name.length + 1)⟩ : IStream).read dataOld.length
      = (payload, ⟨pre ++ (name ++ 0 :: payload), pre.length + (name.length + 1) + payload.length⟩, true) := by
    unfold IStream.read
    simp only [hd2]
    rw [List.take_of_length_le (by omega)]
    simp [htrunc]
  have hlen : (pre ++ (name ++ 0 :: payload)).length
      = pre.length + (name.length + 1) + payload.length := by
    simp [List.length_append]
    omega
  simp only [InputArchive.unserializeImpl, hread, hread2]
  simp [hlen]

/-- Witness for C10: tag `"a"` matches but only one of three payload bytes
is present; the destination is partially overwritten and the cursor stays at
the end of the stream. -/
theorem inputArchive_truncated_payload_witness :
    InputArchive.unserializeImpl [97] [8, 8, 8] ⟨[2] ++ ([97] ++ 0 :: [5]), 1⟩
      = ⟨some .eof,
          ⟨[2] ++ ([97] ++ 0 :: [5]), ([2] ++ (([97] : List Nat) ++ 0 :: [5])).length⟩,
          [5] ++ ([8, 8, 8] : List Nat).drop ([5] : List Nat).length⟩ :=
  inputArchive_truncated_payload [97] [5] [8, 8, 8] [2] (by decide) (by decide)

/-- Claim C4: in the unknown-type stream read, end-of-stream before a
terminator fails with `"eof"` leaving the cursor at the end of the stream
(no rewind), whereas a complete tag absent from the pool rewinds the cursor
to the recorded record-start position and fails with `"unknown type"`
carrying the tag. -/
theorem unknownArchive_eof_and_unknown (tp : TypePool) (s : IStream)
    (hp : s.pos ≤ s.data.length) :
    (0 ∉ s.data.drop s.pos →
      UnknownInputArchive.unserialize tp s = ⟨some .eof, ⟨s.data, s.data.length⟩, none⟩) ∧
    (∀ tag rest : List Nat, s.data.drop s.pos = tag ++ 0 :: rest → 0 ∉ tag →
      poolFind tp tag = none →
      UnknownInputArchive.unserialize tp s
        = ⟨some (.unknownType tag), ⟨s.data, s.pos⟩, none⟩) := by
  constructor
  · intro hz
    simp only [UnknownInputArchive.unserialize, getlineZ_eof hz hp]
    rfl
  · intro tag rest hd hz hfind
    simp only [UnknownInputArchive.unserialize, getlineZ_found hd hz]
    simp only [Bool.false_eq_true, if_false, TypePool.unserializeUnknownStream, hfind]
    rfl

/-- Witness for C4: a tag cut short by end-of-stream gives `"eof"` with the
cursor at the end, and the complete unregistered tag `"a"` gives
`"unknown type"` with the cursor rewound to the record start. -/
theorem unknownArchive_eof_and_unknown_witness :
    UnknownInputArchive.unserialize [] ⟨[1, 97, 98], 1⟩
        = ⟨some .eof, ⟨[1, 97, 98], ([1, 97, 98] : List Nat).length⟩, none⟩ ∧
    UnknownInputArchive.unserialize [] ⟨[1, 97, 0, 5], 1⟩
        = ⟨some (.unknownType [97]), ⟨[1, 97, 0, 5], 1⟩, none⟩ :=
  ⟨(unknownArchive_eof_and_unknown [] ⟨[1, 97, 98], 1⟩ (by decide)).1 (by decide),
    (unknownArchive_eof_and_unknown [] ⟨[1, 97, 0, 5], 1⟩ (by decide)).2 [97] [5]
      (by decide) (by decide) (by decide)⟩

/-- Counterexample to claim C5 as stated: the record of a type `A` with
1-byte tag `"a"` and 1-byte payload, written by `serialize` into its exact
3-byte buffer, decoded expecting a type `B` with tag `"bb"` and 4-byte
payload, fails with `BufferTooSmall` — not `TypeMismatch` — because the
size check precedes the tag comparison (the destination is still
unmodified). -/
theorem typeMismatch_claim_counterexample :
    (serializeImpl [0, 0, 0] (([0, 0, 0] : List Nat).length : Int) [97] [7]).2 = [97, 0, 7] ∧
    unserializeImpl [98, 98] [1, 2, 3, 4] [97, 0, 7] (([97, 0, 7] : List Nat).length : Int)
      = (BufferTooSmall, [1, 2, 3, 4]) ∧
    BufferTooSmall ≠ TypeMismatch := by
  decide

/-- Claim C5, amended: decoding a record written for type `A` while
expecting a different-tag type `B` fails with `TypeMismatch` (buffer API) or
a `"wrong type"` failure carrying `A`'s tag (stream API) and leaves the
destination unmodified, provided the source holds enough bytes for `B`'s
check: at least `len(tagB) + 1 + sizeof(B)` buffer bytes, respectively at
least `len(tagB) + 1` stream bytes from the record start. -/
theorem typeMismatch_safety (tagA tagB payloadA pad dataOld : List Nat)
    (haz : 0 ∉ tagA) (hbz : 0 ∉ tagB) (hab : tagA ≠ tagB)
    (hfitBuf : tagB.length + 1 + dataOld.length
        ≤ tagA.length + 1 + payloadA.length + pad.length)
    (hfitStream : tagB.length + 1 ≤ tagA.length + 1 + payloadA.length) :
    unserializeImpl tagB dataOld (tagA ++ 0 :: (payloadA ++ pad))
        ((tagA ++ 0 :: (payloadA ++ pad)).length : Int)
      = (TypeMismatch, dataOld) ∧
    InputArchive.unserializeImpl tagB dataOld ⟨tagA ++ 0 :: payloadA, 0⟩
      = ⟨some (.wrongType tagA), ⟨tagA ++ 0 :: payloadA, 0⟩, dataOld⟩ := by
  constructor
  · have hlenbuf : ((tagA ++ 0 :: (payloadA ++ pad)) : List Nat).length
        = tagA.length + 1 + payloadA.length + pad.length := by
      simp [List.length_append]
      omega
    simp only [unserializeImpl, hlenbuf]
    rw [if_neg (by push_cast; omega)]
    rw [if_pos (tag_take_ne (payloadA ++ pad) haz hbz hab)]
  · have hbytes : tagB.length + 1
        ≤ (((⟨tagA ++ 0 :: payloadA, 0⟩ : IStream)).data.drop
            ((⟨tagA ++ 0 :: payloadA, 0⟩ : IStream)).pos).length := by
      simp [List.length_append]
      omega
    simp only [InputArchive.unserializeImpl, read_exact hbytes]
    simp only [Bool.false_eq_true, if_false, List.drop_zero]
    rw [if_pos (tag_take_ne payloadA haz hbz hab)]
    simp only [IStream.seekg]
    rw [getlineZ_tag, getlineZ_data]
    simp only [List.drop_zero]
    rw [takeWhile_nz_append payloadA haz]

/-- Witness for the amended C5: record tagged `"a"`, expected tag `"b"`
with 1-byte payload; both transports report the mismatch and leave the
destination `[9]` untouched. -/
theorem typeMismatch_safety_witness :
    unserializeImpl [98] [9] ([97] ++ 0 :: ([7] ++ []))
        ((([97] ++ 0 :: ([7] ++ []) : List Nat)).length : Int)
      = (TypeMismatch, [9]) ∧
    InputArchive.unserializeImpl [98] [9] ⟨[97] ++ 0 :: [7], 0⟩
      = ⟨some (.wrongType [97]), ⟨[97] ++ 0 :: [7], 0⟩, [9]⟩ :=
  typeMismatch_safety [97] [98] [7] [] [9]
    (by decide) (by decide) (by decide) (by decide) (by decide)

/-- Claim C1 concerns a code bug: `unserializeUnknown` adds `nameSize + 1`
to the inner result unconditionally, so inner error codes are shifted
instead of returned.  With an empty pool and buffer `"ab\0*"` the result is
`UnknownType + 2 + 1 = 0`, and with tag `"a"` registered at size 5 but only
1 payload byte available the result is `BufferTooSmall + 1 + 1 = 1`: both
contradict the documented negative sentinel codes and are indistinguishable
from byte counts. -/
theorem unserializeUnknown_error_code_bug :
    unserializeUnknown [] [97, 98, 0, 42] 4 = 0 ∧
    unserializeUnknown [([97], 5)] [97, 0, 1] 3 = 1 ∧
    unserializeUnknown [] [97, 98, 0, 42] 4 ≠ UnknownType ∧
    ¬ unserializeUnknown [] [97, 98, 0, 42] 4 < 0 ∧
    ¬ unserializeUnknown [([97], 5)] [97, 0, 1] 3 < 0 := by
  decide

/-- Claim C8: the compile-time tag is the one-at-a-time hash (seed 0;
per byte `h += byte; h += h<<10; h ^= h>>6`; finalized with `h += h<<3;
h ^= h>>11; h += h<<15`) of the compiler-generated type description with
the expected prefix and suffix stripped — for the ASCII bytes the compiler
produces, the code's (signed-`char`) hash agrees with the specification's
per-byte recurrence — and the `static_assert` sanity checks succeed exactly
when the prefix and suffix match those literals, compilation failing
(`none`) otherwise. -/
theorem type_id_hash_spec :
    (∀ a : List Nat, (∀ b ∈ a, b < 128) → comptime_hash a = specOneAtATimeHash a) ∧
    (∀ pf pre post : List Nat, pre.length ≤ pf.length → post.length ≤ pf.length →
      type_id pf pre post
        = if pre.length < pf.length ∧ pf.take pre.length = pre
              ∧ post.length < pf.length ∧ pf.drop (pf.length - post.length) = post
          then some (comptime_hash
            ((pf.drop pre.length).take (pf.length - pre.length - post.length)))
          else none) := by
  constructor
  · intro a ha
    unfold comptime_hash specOneAtATimeHash
    rw [foldl_hashRound_eq_spec a 0 ha]
    rfl
  · intro pf pre post hpre hpost
    have h1 : (comptime_memcmp pf pre pre.length = true) ↔ (pf.take pre.length = pre) := by
      unfold comptime_memcmp
      rw [decide_eq_true_iff, List.take_length]
    have h2 : (comptime_memcmp (pf.drop (pf.length - post.length)) post post.length = true)
        ↔ (pf.drop (pf.length - post.length) = post) := by
      unfold comptime_memcmp
      rw [decide_eq_true_iff, List.take_length]
      constructor
      · intro h
        have hlen : (pf.drop (pf.length - post.length)).length = post.length := by
          rw [List.length_drop]
          omega
        rw [List.take_of_length_le (le_of_eq hlen)] at h
        exact h
      · intro h
        rw [h, List.take_length]
    unfold type_id
    exact if_congr (by rw [h1, h2]) rfl rfl

/-- Witness for C8: the hash of the two ASCII bytes `"T1"` agrees with the
specification's recurrence, and `type_id` on a pretty-function string
`pre ++ "T1" ++ post` strips the literals and hashes exactly `"T1"`. -/
theorem type_id_hash_spec_witness :
    comptime_hash [84, 49] = specOneAtATimeHash [84, 49] ∧
    type_id [80, 82, 69, 84, 49, 80, 79] [80, 82, 69] [80, 79]
      = some (comptime_hash [84, 49]) := by
  constructor
  · exact type_id_hash_spec.1 [84, 49] (by decide)
  · rw [type_id_hash_spec.2 [80, 82, 69, 84, 49, 80, 79] [80, 82, 69] [80, 79]
      (by decide) (by decide)]
    decide

end Tscpp
